import Mathlib

/-!
Verification of the GoldBoxVisualizer boot-profiler core (src/main.py).

Shallow embedding notes:
* Timestamps (Python floats from `time.time()`) are modelled as rationals.
* A compiled regex is modelled by its observable interface in the code,
  `pattern.search(line)` truthiness, i.e. a function `String → Bool`.
* The timeline dict `{stage: {"start": .., "end": ..}}` is a function
  `String → Interval`; the log ring buffer (`deque(maxlen=1000)`) is a list
  with explicit eviction; the hotkey/control queue is the optional action
  returned by `process_line`.
* Python truthiness of an optional float (`if start and end:`) is `truthy`:
  `None` and `0.0` are falsy, everything else truthy.
-/

namespace GoldBox

/-- One stage's interval, `{"start": Optional[float], "end": Optional[float]}`
(src/main.py line 1732).  `end` is a Lean keyword, hence the field `end_`. -/
structure Interval where
  start : Option ℚ
  end_ : Option ℚ
deriving DecidableEq, Repr

/-- The empty interval `{"start": None, "end": None}`. -/
def emptyInterval : Interval := { start := none, end_ := none }

/-- Python truthiness of an optional float: `None` and `0.0` are falsy. -/
def truthy : Option ℚ → Bool
  | none => false
  | some x => x != 0

/-- `when` field of a marker: `"start"` or `"end"` (validated at config load). -/
inductive MWhen where
  | start
  | end_
deriving DecidableEq, Repr

/-- An explicit marker `{regex, target, when}` from `load_config`
(src/main.py lines 158-162).  The compiled regex is modelled by the
truthiness of `regex.search(line)`. -/
structure Marker where
  regex : String → Bool
  target : String
  when : MWhen

/-- The configuration-derived globals the line state machine reads:
`STAGES` (ordered by index), `START_RE`, `MARKERS`, `PATTERNS`
(src/main.py lines 194-200).  `patterns` keeps the dict's iteration order
as an association list. -/
structure Config where
  stages : List String
  start_re : String → Bool
  markers : List Marker
  patterns : List (String × (String → Bool))

/-- Shared state guarded by the lock: the timeline dict and the
`deque(maxlen=1000)` of log lines (src/main.py lines 1730-1732). -/
structure TLState where
  timeline : String → Interval
  log_lines : List String

/-- The only control action `process_line` itself emits
(src/main.py line 319); the other queue entries come from hotkeys. -/
inductive Action where
  | autoReset
deriving DecidableEq, Repr

/-- `deque(maxlen=1000).append`: append, evicting the oldest entry when full. -/
def ringAppend (buf : List String) (l : String) : List String :=
  let b := buf ++ [l]
  if b.length ≤ 1000 then b else b.drop (b.length - 1000)

/-- src/main.py lines 312-313: `if not log_lines or log_lines[-1] != new_line:
log_lines.append(new_line)` — consecutive-duplicate suppressing append. -/
def dedupAppend (buf : List String) (l : String) : List String :=
  if buf = [] ∨ buf.getLast? ≠ some l then ringAppend buf l else buf

/-- src/main.py line 303: `line = raw_line.replace("\t", " ").strip()`.
`.replace("\t", " ")` substitutes each tab character by a space; `.strip()`
removes leading and trailing whitespace.  Rendered over the character list
so it evaluates in the kernel. -/
def normalizeLine (raw : String) : String :=
  let replaced := raw.data.map fun c => if c = '\t' then ' ' else c
  let stripped :=
    ((replaced.dropWhile Char.isWhitespace).reverse.dropWhile
      Char.isWhitespace).reverse
  String.mk stripped

/-- The `when == "start"` marker mutation, src/main.py lines 329-336:
set the target's `start` only if unset, then auto-close the immediately
preceding stage when it has a (truthy) `start` and no `end`.  The
fallback per-stage pattern branch (lines 342-352) performs the identical
mutation. -/
def applyStartMarker (cfg : Config) (tl : String → Interval) (target : String)
    (now : ℚ) : String → Interval :=
  let tl1 := if (tl target).start = none
    then Function.update tl target { tl target with start := some now }
    else tl
  let idx := cfg.stages.indexOf target
  if 1 ≤ idx then
    let prev := cfg.stages.getD (idx - 1) ""
    if truthy (tl1 prev).start ∧ (tl1 prev).end_ = none
      then Function.update tl1 prev { tl1 prev with end_ := some now }
      else tl1
  else tl1

/-- The `when == "end"` marker mutation, src/main.py lines 337-338:
unconditionally set the target's `end` to now. -/
def applyEndMarker (tl : String → Interval) (target : String) (now : ℚ) :
    String → Interval :=
  Function.update tl target { tl target with end_ := some now }

/-- `process_line` from `log_thread` (src/main.py lines 302-352): normalize,
drop empty lines, append to the ring buffer, then the first of
reset-pattern / explicit markers (first match wins) / fallback per-stage
patterns fires; a reset match only enqueues `AUTO_RESET`. -/
def process_line (cfg : Config) (st : TLState) (now : ℚ) (ts : String)
    (raw : String) : TLState × Option Action :=
  let line := normalizeLine raw
  if line = "" then (st, none)
  else
    let new_line := ts ++ " - " ++ line
    let st1 : TLState := { st with log_lines := dedupAppend st.log_lines new_line }
    if cfg.start_re line then (st1, some Action.autoReset)
    else
      match cfg.markers.find? (fun m => m.regex line) with
      | some m =>
        match m.when with
        | MWhen.start =>
          ({ st1 with timeline := applyStartMarker cfg st1.timeline m.target now }, none)
        | MWhen.end_ =>
          ({ st1 with timeline := applyEndMarker st1.timeline m.target now }, none)
      | none =>
        match cfg.patterns.find? (fun p => p.2 line) with
        | some p =>
          ({ st1 with timeline := applyStartMarker cfg st1.timeline p.1 now }, none)
        | none => (st1, none)

/-- Fold `process_line` over a list of `(now, timestamp-string, raw-line)`
triples, discarding the emitted actions (the ingestion thread's view). -/
def processAll (cfg : Config) (st : TLState)
    (lines : List (ℚ × String × String)) : TLState :=
  lines.foldl (fun s l => (process_line cfg s l.1 l.2.1 l.2.2).1) st

/-- The `RESET` branch of the consumer loop (src/main.py lines 1134-1140):
clear every stage's interval and clear the log buffer.  (The scale-preset
bookkeeping of that branch is consumer-local and not part of the store.) -/
def applyReset (cfg : Config) (st : TLState) : TLState :=
  { timeline := fun s => if s ∈ cfg.stages then emptyInterval else st.timeline s
    log_lines := [] }

/-- The `AUTO_RESET` branch (src/main.py lines 1178-1237): preserve the last
buffered line, clear every interval, restore the preserved line as the whole
buffer, and finally set the first stage's `start` to a fresh `time.time()`
(`now2`). -/
def applyAutoReset (cfg : Config) (st : TLState) (now2 : ℚ) : TLState :=
  let preserved := st.log_lines.getLast?
  let cleared : String → Interval :=
    fun s => if s ∈ cfg.stages then emptyInterval else st.timeline s
  let tl := match cfg.stages with
    | [] => cleared
    | s0 :: _ => Function.update cleared s0 { cleared s0 with start := some now2 }
  { timeline := tl
    log_lines := preserved.toList }

/-- `compute_durations` (src/main.py lines 284-299) restricted to one stage;
the Python truthiness tests `if start and end` / `elif start and not end`
are rendered with `truthy`. -/
def compute_durations (tl : String → Interval) (now : ℚ) (stage : String) : ℚ :=
  let s := (tl stage).start
  let e := (tl stage).end_
  if truthy s && truthy e then max 0 (e.getD 0 - s.getD 0)
  else if truthy s && !truthy e then max 0 (now - s.getD 0)
  else 0

/-- `math.floor(math.log10(q))` for a rational `q ≥ 10^-12` (the code only
applies it after clamping with `max(target, 1e-12)`): shift by `10^12` so the
argument of `Nat.log` is a positive integer. -/
def floorLog10 (q : ℚ) : ℤ :=
  (Nat.log 10 (Int.toNat ⌊q * 10 ^ 12⌋) : ℤ) - 12

/-- The candidate multiplier list of `closer_nice_max`
(src/main.py line 249): `[1, 1.1, 1.2, 1.25, 1.5, 2, 2.5, 5]`. -/
def niceCandidates : List ℚ := [1, 11/10, 6/5, 5/4, 3/2, 2, 5/2, 5]

/-- The candidate scan of `closer_nice_max` (src/main.py lines 250-254):
return the first `c * mag` that is `≥ target - 1e-12`, falling back to
`10 * mag`. -/
def pickCandidate (target mag : ℚ) : List ℚ → ℚ
  | [] => 10 * mag
  | c :: rest =>
    if target - 1 / 10 ^ 12 ≤ c * mag then c * mag else pickCandidate target mag rest

/-- `closer_nice_max` (src/main.py lines 243-254), parametrized by the live
global `HEADROOM_FACTOR` it reads; `target = value * headroom` and
`mag = 10 ** floor(log10(max(target, 1e-12)))` are inlined. -/
def closer_nice_max (headroom : ℚ) (value : ℚ) : ℚ :=
  if value ≤ 0 then 1
  else
    pickCandidate (value * headroom)
      (10 ^ floorLog10 (max (value * headroom) (1 / 10 ^ 12))) niceCandidates

/-- The per-frame target-ceiling update of the consumer loop
(src/main.py lines 1310-1313): replace the scale by
`closer_nice_max(needed)` only when `needed > scale * 0.999999`. -/
def scale_update (headroom scale needed : ℚ) : ℚ :=
  if scale * (999999 / 1000000) < needed then closer_nice_max headroom needed
  else scale

/-- ASCII digit for `n < 10`. -/
def digitChar (n : ℕ) : Char := Char.ofNat (48 + n)

/-- Decimal digits of `n` as characters, most significant first; `fuel`
bounds the recursion (any `fuel ≥` the digit count is enough). -/
def natDigits : ℕ → ℕ → List Char
  | 0, _ => []
  | fuel + 1, n =>
    if n < 10 then [digitChar n]
    else natDigits fuel (n / 10) ++ [digitChar (n % 10)]

/-- Decimal rendering of a natural number. -/
def natToStr (n : ℕ) : String := String.mk (natDigits (n + 1) n)

/-- Left-pad a digit list with zeros to width `w`. -/
def padZeros (w : ℕ) (cs : List Char) : List Char :=
  List.replicate (w - cs.length) '0' ++ cs

/-- Strip trailing `'0'` characters (`f.rstrip("0")`, src/main.py line 264). -/
def rstripZeros (cs : List Char) : List Char :=
  (cs.reverse.dropWhile (fun c => c = '0')).reverse

/-- Round-half-to-even of a rational to an integer: the rounding
`f"{val:.{decimals}f}"` performs on the scaled value. -/
def roundHalfEven (q : ℚ) : ℤ :=
  let f := ⌊q⌋
  let r := q - f
  if r < 1 / 2 then f
  else if 1 / 2 < r then f + 1
  else if f % 2 = 0 then f else f + 1

/-- `format_label` (src/main.py lines 256-270): pick 1/2/3 decimals by
magnitude, round to that many decimals, strip trailing fractional zeros
keeping at least one digit, append `"s"`.  (The code's no-decimal-point
branch is unreachable: `decimals ≥ 1` always produces a point.) -/
def format_label (val : ℚ) : String :=
  let decimals : ℕ := if 10 ≤ val then 1 else if 1 ≤ val then 2 else 3
  let sign := if val < 0 then "-" else ""
  let m := (roundHalfEven (|val| * 10 ^ decimals)).toNat
  let ip := m / 10 ^ decimals
  let fp := m % 10 ^ decimals
  let fracDigits := rstripZeros (padZeros decimals (natDigits (fp + 1) fp))
  let frac := if fracDigits = [] then "0" else String.mk fracDigits
  sign ++ natToStr ip ++ "." ++ frac ++ "s"

/-- Structural invariant of spec §3: no interval has `end` set while
`start` is unset. -/
def TLInv (tl : String → Interval) : Prop :=
  ∀ s, (tl s).end_ ≠ none → (tl s).start ≠ none

/-- `TLInv` for a whole shared state. -/
def TimelineInv (st : TLState) : Prop := TLInv st.timeline

/-- A raw line is end-marker-safe in a state when, if its first matching
marker is an `End` marker, that marker's target already has `start` set. -/
def EndMarkerSafe (cfg : Config) (st : TLState) (raw : String) : Prop :=
  ∀ m, cfg.markers.find? (fun m' => m'.regex (normalizeLine raw)) = some m →
    m.when = MWhen.end_ → (st.timeline m.target).start ≠ none

/-- Every line of the trace is end-marker-safe in the state it is
processed in. -/
def SafeTrace (cfg : Config) : TLState → List (ℚ × String × String) → Prop
  | _, [] => True
  | st, l :: rest =>
    EndMarkerSafe cfg st l.2.2 ∧
    SafeTrace cfg (process_line cfg st l.1 l.2.1 l.2.2).1 rest

/-- Process the first `j` of the indexed marker lines `mline` (line `i`
carrying ingestion time `t i` and timestamp string `ts i`). -/
def runMarkers (cfg : Config) (st : TLState) (ts : ℕ → String) (t : ℕ → ℚ)
    (mline : ℕ → String) : ℕ → TLState
  | 0 => st
  | j + 1 =>
    (process_line cfg (runMarkers cfg st ts t mline j) (t j) (ts j) (mline j)).1

/-- All-empty shared state. -/
def emptySt : TLState := ⟨fun _ => emptyInterval, []⟩

/-- One stage `A` whose only marker is an `End` marker matching every line. -/
def endCfg : Config := ⟨["A"], fun _ => false, [⟨fun _ => true, "A", MWhen.end_⟩], []⟩

/-- Two stages with start markers `"mb" → B` and `"ma" → A`. -/
def twoStartCfg : Config :=
  ⟨["A", "B"], fun _ => false,
   [⟨fun l => l == "mb", "B", MWhen.start⟩, ⟨fun l => l == "ma", "A", MWhen.start⟩], []⟩

/-- State reached from empty after `"mb"` at time 1 and `"ma"` at time 2. -/
def twoStartSt : TLState := processAll twoStartCfg emptySt [(1, "t1", "mb"), (2, "t2", "ma")]

/-- One explicit marker (`"mb" → B` start) plus a fallback per-stage
pattern for `A`. -/
def fallbackCfg : Config :=
  ⟨["A", "B"], fun _ => false,
   [⟨fun l => l == "mb", "B", MWhen.start⟩], [("A", fun l => l == "pa")]⟩

/-- One stage, no markers, no patterns. -/
def oneStageCfg : Config := ⟨["A"], fun _ => false, [], []⟩

/-- Concrete input whose headroom target `x * 1.05` equals
`2 + 5·10^-13`, just inside the `1e-12` tolerance above the candidate
`2`. -/
def nearTwo : ℚ := 4000000000001 / 2100000000000

/-- State with a single buffered log line. -/
def oneLineSt : TLState := ⟨fun _ => emptyInterval, ["L"]⟩

/-- State where stage `B` is open and every other stage is empty. -/
def bStartedSt : TLState :=
  ⟨fun s => if s = "B" then ⟨some 1, none⟩ else emptyInterval, []⟩

/-- Three stages, reset pattern `"POR"`, one start marker per stage —
the end-to-end scenario of spec §8. -/
def seqCfg : Config :=
  ⟨["A", "B", "C"], fun l => l == "POR",
   [⟨fun l => l == "sa", "A", MWhen.start⟩, ⟨fun l => l == "sb", "B", MWhen.start⟩,
    ⟨fun l => l == "sc", "C", MWhen.start⟩], []⟩

/-- The auto-close scenario's line family: line `i` is already normalized,
nonempty, does not match the reset pattern, and its first matching marker
is a `Start` marker targeting stage `i`. -/
def MarkerScenario (cfg : Config) (mline : ℕ → String) : Prop :=
  ∀ i, i < cfg.stages.length →
    normalizeLine (mline i) = mline i ∧ mline i ≠ "" ∧
    cfg.start_re (mline i) = false ∧
    ∃ m, cfg.markers.find? (fun m' => m'.regex (mline i)) = some m ∧
      m.target = cfg.stages.getD i "" ∧ m.when = MWhen.start

/-- Timestamps of the scenario: stage 0 starts at the `AutoReset`
consumption time `u`, stage `i ≥ 1` at its marker line's time `t i`. -/
def tau (u : ℚ) (t : ℕ → ℚ) : ℕ → ℚ := fun i => if i = 0 then u else t i

/-- Invariant after the reset consumption and `j` processed marker lines:
stages `0 .. max j 1 - 1` have started at their `tau` times, stages below
`j - 1` are closed at the next stage's start time, everything later is
empty. -/
def StInv (cfg : Config) (u : ℚ) (t : ℕ → ℚ) (j : ℕ) (st : TLState) : Prop :=
  ∀ i, i < cfg.stages.length →
    ((st.timeline (cfg.stages.getD i "")).start =
      if i < max j 1 then some (tau u t i) else none) ∧
    ((st.timeline (cfg.stages.getD i "")).end_ =
      if i + 1 < j then some (tau u t (i + 1)) else none)

-- Basic facts about Python truthiness of optional timestamps.

lemma truthy_some_of_ne {a : ℚ} (h : a ≠ 0) : truthy (some a) = true := by
  simp [truthy, h]

lemma truthy_some_zero : truthy (some (0 : ℚ)) = false := by
  simp [truthy]

lemma start_ne_none_of_truthy {o : Option ℚ} (h : truthy o = true) : o ≠ none := by
  cases o with
  | none => simp [truthy] at h
  | some a => simp

/-- C10: `compute_durations` tests timestamps by Python truthiness: a stage
whose `start` holds the timestamp `0` gets duration `0` even when `end` is
set to a positive value; the documented both-set rule `end - start` applies
under the precondition that both recorded timestamps are strictly
positive. -/
theorem spec_C10 (tl : String → Interval) (now : ℚ) (stage : String) :
    (∀ e : ℚ, (tl stage).start = some 0 → (tl stage).end_ = some e → 0 < e →
      compute_durations tl now stage = 0) ∧
    (∀ a b : ℚ, (tl stage).start = some a → 0 < a →
      (tl stage).end_ = some b → 0 < b →
      compute_durations tl now stage = max 0 (b - a)) := by
  constructor
  · intro e hs he _
    simp [compute_durations, hs, he, truthy]
  · intro a b hs ha he hb
    simp [compute_durations, hs, he, truthy, ha.ne', hb.ne']

/-- Witness for C10 at a concrete snapshot: `start = 0, end = 5` yields
duration `0`, and `start = 1, end = 5` yields `max 0 (5 - 1)`. -/
theorem spec_C10_witness :
    compute_durations (fun _ => ⟨some 0, some 5⟩) 7 "A" = 0 ∧
    compute_durations (fun _ => ⟨some 1, some 5⟩) 7 "A" = max 0 (5 - 1) :=
  ⟨(spec_C10 (fun _ => ⟨some 0, some 5⟩) 7 "A").1 5 rfl rfl (by norm_num),
   (spec_C10 (fun _ => ⟨some 1, some 5⟩) 7 "A").2 1 5 rfl (by norm_num) rfl
     (by norm_num)⟩

/-- C5 counterexample: in the snapshot where stage `A` has `start = some 0`
and `end = some 5` (both timestamps set), the computed duration is `0`, not
`end - start` floored at `0` as the claim states. -/
theorem spec_C5_cex :
    compute_durations (fun _ => ⟨some 0, some 5⟩) 7 "A" ≠ max 0 (5 - 0) := by
  have h : compute_durations (fun _ => ⟨some 0, some 5⟩) 7 "A" = 0 := rfl
  rw [h]
  norm_num

/-- C5 as amended: the case split of `compute_durations` is by Python
truthiness, so "set" must be read as "set and nonzero": `end - start`
floored at 0 when both are set and nonzero; `now - start` floored at 0
when `start` is set and nonzero and `end` is unset or zero; `0` when
`start` is unset or zero. -/
theorem spec_C5_amended (tl : String → Interval) (now : ℚ) (stage : String) :
    (∀ a b : ℚ, (tl stage).start = some a → a ≠ 0 →
      (tl stage).end_ = some b → b ≠ 0 →
      compute_durations tl now stage = max 0 (b - a)) ∧
    (∀ a : ℚ, (tl stage).start = some a → a ≠ 0 →
      ((tl stage).end_ = none ∨ (tl stage).end_ = some 0) →
      compute_durations tl now stage = max 0 (now - a)) ∧
    (((tl stage).start = none ∨ (tl stage).start = some 0) →
      compute_durations tl now stage = 0) := by
  refine ⟨?_, ?_, ?_⟩
  · intro a b hs ha he hb
    simp [compute_durations, hs, he, truthy, ha, hb]
  · intro a hs ha he
    rcases he with he | he <;> simp [compute_durations, hs, he, truthy, ha]
  · intro hs
    rcases hs with hs | hs <;> simp [compute_durations, hs, truthy]

/-- Witness for C5's amended statement at concrete snapshots. -/
theorem spec_C5_witness :
    compute_durations (fun _ => ⟨some 2, some 5⟩) 7 "A" = max 0 (5 - 2) ∧
    compute_durations (fun _ => ⟨some 2, none⟩) 7 "A" = max 0 (7 - 2) ∧
    compute_durations (fun _ => ⟨none, some 5⟩) 7 "A" = 0 :=
  ⟨(spec_C5_amended (fun _ => ⟨some 2, some 5⟩) 7 "A").1 2 5 rfl (by norm_num)
      rfl (by norm_num),
   (spec_C5_amended (fun _ => ⟨some 2, none⟩) 7 "A").2.1 2 rfl (by norm_num)
      (Or.inl rfl),
   (spec_C5_amended (fun _ => ⟨none, some 5⟩) 7 "A").2.2 (Or.inl rfl)⟩

-- Concrete evaluations of format_label, shared by C8's counterexample and
-- its amended theorem.

lemma format_label_half : format_label ((1:ℚ)/2) = "0.5s" := by
  have h : roundHalfEven (|(1:ℚ)/2| * 10 ^ (3:ℕ)) = 500 := by
    have h2 : |(1:ℚ)/2| * 10 ^ (3:ℕ) = 500 := by
      rw [abs_of_nonneg (by norm_num : (0:ℚ) ≤ 1/2)]
      norm_num
    rw [h2, roundHalfEven]
    norm_num
  simp only [format_label]
  rw [if_neg (by norm_num : ¬ (10:ℚ) ≤ 1/2), if_neg (by norm_num : ¬ (1:ℚ) ≤ 1/2),
    if_neg (by norm_num : ¬ (1:ℚ)/2 < 0), h]
  decide

lemma format_label_sixFifths : format_label ((6:ℚ)/5) = "1.2s" := by
  have h : roundHalfEven (|(6:ℚ)/5| * 10 ^ (2:ℕ)) = 120 := by
    have h2 : |(6:ℚ)/5| * 10 ^ (2:ℕ) = 120 := by
      rw [abs_of_nonneg (by norm_num : (0:ℚ) ≤ 6/5)]
      norm_num
    rw [h2, roundHalfEven]
    norm_num
  simp only [format_label]
  rw [if_neg (by norm_num : ¬ (10:ℚ) ≤ 6/5), if_pos (by norm_num : (1:ℚ) ≤ 6/5),
    if_neg (by norm_num : ¬ (6:ℚ)/5 < 0), h]
  decide

lemma format_label_tweleveThree : format_label ((123:ℚ)/10) = "12.3s" := by
  have h : roundHalfEven (|(123:ℚ)/10| * 10 ^ (1:ℕ)) = 123 := by
    have h2 : |(123:ℚ)/10| * 10 ^ (1:ℕ) = 123 := by
      rw [abs_of_nonneg (by norm_num : (0:ℚ) ≤ 123/10)]
      norm_num
    rw [h2, roundHalfEven]
    norm_num
  simp only [format_label]
  rw [if_pos (by norm_num : (10:ℚ) ≤ 123/10),
    if_neg (by norm_num : ¬ (123:ℚ)/10 < 0), h]
  decide

/-- C8 counterexample: `format_label(0.5)` is `"0.5s"`, not `"0.500s"` —
the function strips trailing zeros from the fractional part
(src/main.py line 264), so values are not rendered with a fixed 3 (resp.
2, 1) decimal places as claimed. -/
theorem spec_C8_cex : format_label ((1:ℚ)/2) ≠ "0.500s" := by
  rw [format_label_half]
  decide

/-- C8 as amended: `format_label` rounds to 1 decimal place for values
≥ 10, 2 for values ≥ 1 and 3 otherwise, then strips trailing zeros from
the fractional part (keeping at least one digit): `format_label(0.5) =
"0.5s"`, `format_label(1.2) = "1.2s"`, `format_label(12.3) = "12.3s"`. -/
theorem spec_C8_amended :
    format_label ((1:ℚ)/2) = "0.5s" ∧ format_label ((6:ℚ)/5) = "1.2s" ∧
    format_label ((123:ℚ)/10) = "12.3s" :=
  ⟨format_label_half, format_label_sixFifths, format_label_tweleveThree⟩

/-- C2 counterexample: after `AUTO_RESET` is consumed (config with one
stage `A`, buffer `["L"]`, consumption time 5) the ring buffer does
contain exactly the preserved line, but stage `A`'s interval is
`⟨some 5, none⟩`, not empty: the branch sets the first stage's `start`
right after clearing (src/main.py lines 1234-1237). -/
theorem spec_C2_cex :
    (applyAutoReset oneStageCfg oneLineSt 5).timeline "A" ≠ emptyInterval ∧
    (applyAutoReset oneStageCfg oneLineSt 5).log_lines = ["L"] := by
  constructor
  · have h : (applyAutoReset oneStageCfg oneLineSt 5).timeline "A" =
        ⟨some 5, none⟩ := rfl
    rw [h]
    simp [emptyInterval]
  · rfl

/-- C2 as amended: after `Reset` every stage's interval is empty and the
buffer is empty; after `AutoReset` the buffer holds exactly the preserved
most recent line, every stage's interval is empty **except the first
stage**, whose `start` is set to the consumption-time `now2` (end unset). -/
theorem spec_C2_amended (cfg : Config) (st : TLState) (now2 : ℚ) :
    ((applyReset cfg st).log_lines = [] ∧
      ∀ s ∈ cfg.stages, (applyReset cfg st).timeline s = emptyInterval) ∧
    ((applyAutoReset cfg st now2).log_lines = st.log_lines.getLast?.toList ∧
      (cfg.stages ≠ [] →
        (applyAutoReset cfg st now2).timeline (cfg.stages.headD "") =
          ⟨some now2, none⟩) ∧
      ∀ s ∈ cfg.stages, s ≠ cfg.stages.headD "" →
        (applyAutoReset cfg st now2).timeline s = emptyInterval) := by
  refine ⟨⟨rfl, ?_⟩, ?_, ?_, ?_⟩
  · intro s hs
    simp [applyReset, hs]
  · cases cfg.stages <;> rfl
  · intro hne
    cases hs : cfg.stages with
    | nil => exact absurd hs hne
    | cons s0 rest =>
      have hmem : s0 ∈ cfg.stages := by rw [hs]; exact List.mem_cons_self s0 rest
      simp [applyAutoReset, hs, Function.update, hmem, emptyInterval]
  · intro s hs hne
    cases hstg : cfg.stages with
    | nil => simp [hstg] at hs
    | cons s0 rest =>
      have hs0 : s ≠ s0 := by
        simpa [hstg] using hne
      have hsrest : s ∈ rest := by
        have hmem := hs
        rw [hstg] at hmem
        rcases List.mem_cons.mp hmem with h | h
        · exact absurd h hs0
        · exact h
      simp [applyAutoReset, hstg, Function.update, hs0, hsrest]

/-- Witness for C2's amended statement at a two-stage config. -/
theorem spec_C2_witness :
    (applyReset twoStartCfg oneLineSt).timeline "A" = emptyInterval ∧
    (applyAutoReset twoStartCfg oneLineSt 5).timeline "A" = ⟨some 5, none⟩ ∧
    (applyAutoReset twoStartCfg oneLineSt 5).timeline "B" = emptyInterval :=
  ⟨(spec_C2_amended twoStartCfg oneLineSt 5).1.2 "A" (by simp [twoStartCfg]),
   (spec_C2_amended twoStartCfg oneLineSt 5).2.2.1 (by simp [twoStartCfg]),
   (spec_C2_amended twoStartCfg oneLineSt 5).2.2.2 "B" (by simp [twoStartCfg])
     (by simp [twoStartCfg])⟩

/-- C3 counterexample: stages `[A, B]`, start markers `"mb" → B` and
`"ma" → A`; after `"mb"` at time 1 and `"ma"` at time 2, stage `B`'s
`start` is set, yet re-processing `"mb"` at time 3 is not a timeline
no-op: it leaves `B` unchanged but auto-closes stage `A`
(`A.end := 3`). -/
theorem spec_C3_cex :
    (twoStartSt.timeline "B").start = some 1 ∧
    (process_line twoStartCfg twoStartSt 3 "t3" "mb").1.timeline "B" =
      twoStartSt.timeline "B" ∧
    (process_line twoStartCfg twoStartSt 3 "t3" "mb").1.timeline "A" ≠
      twoStartSt.timeline "A" := by
  refine ⟨rfl, rfl, ?_⟩
  have h1 : (process_line twoStartCfg twoStartSt 3 "t3" "mb").1.timeline "A" =
      ⟨some 2, some 3⟩ := rfl
  have h2 : twoStartSt.timeline "A" = ⟨some 2, none⟩ := rfl
  rw [h1, h2]
  simp

/-- C3 as amended: when a line's first matching marker is a `Start` marker
whose target already has `start` set, processing it never changes any
stage's `start` (in particular the target keeps its first value), the only
interval that can change is the immediately preceding stage's (its `end`
may be set by the auto-close), and when that predecessor is not open (or
the target is the first stage) the timeline is fully unchanged. -/
theorem spec_C3_amended (cfg : Config) (st : TLState) (now : ℚ) (ts raw : String)
    (m : Marker)
    (hne : normalizeLine raw ≠ "")
    (hnr : cfg.start_re (normalizeLine raw) = false)
    (hfind : cfg.markers.find? (fun m' => m'.regex (normalizeLine raw)) = some m)
    (hwhen : m.when = MWhen.start)
    (hset : (st.timeline m.target).start ≠ none) :
    (∀ s, (((process_line cfg st now ts raw).1.timeline s).start =
      (st.timeline s).start)) ∧
    (∀ s, s ≠ cfg.stages.getD (cfg.stages.indexOf m.target - 1) "" →
      (process_line cfg st now ts raw).1.timeline s = st.timeline s) ∧
    (¬ (1 ≤ cfg.stages.indexOf m.target ∧
        truthy (st.timeline
          (cfg.stages.getD (cfg.stages.indexOf m.target - 1) "")).start = true ∧
        (st.timeline
          (cfg.stages.getD (cfg.stages.indexOf m.target - 1) "")).end_ = none) →
      (process_line cfg st now ts raw).1.timeline = st.timeline) := by
  have hres : (process_line cfg st now ts raw).1.timeline =
      applyStartMarker cfg st.timeline m.target now := by
    simp only [process_line]
    rw [if_neg hne, hnr, hfind]
    simp only [Bool.false_eq_true, if_false, hwhen]
  have htl1 : (if (st.timeline m.target).start = none
      then Function.update st.timeline m.target
        { st.timeline m.target with start := some now }
      else st.timeline) = st.timeline := if_neg hset
  rw [hres]
  set prev := cfg.stages.getD (cfg.stages.indexOf m.target - 1) "" with hprev
  refine ⟨?_, ?_, ?_⟩
  · intro s
    simp only [applyStartMarker, htl1, ← hprev]
    split_ifs with h1 h2
    · by_cases hsp : s = prev
      · subst hsp
        simp [Function.update]
      · simp [Function.update, hsp]
    · rfl
    · rfl
  · intro s hsp
    simp only [applyStartMarker, htl1, ← hprev]
    split_ifs with h1 h2
    · simp [Function.update, hsp]
    · rfl
    · rfl
  · intro hno
    simp only [applyStartMarker, htl1, ← hprev]
    split_ifs with h1 h2
    · exact absurd ⟨h1, by simpa using h2.1, h2.2⟩ hno
    · rfl
    · rfl

/-- Witness for C3's amended statement: `B` already started, predecessor
`A` empty, so re-processing `"mb"` changes nothing at all. -/
theorem spec_C3_witness :
    (process_line twoStartCfg bStartedSt 3 "t" "mb").1.timeline =
      bStartedSt.timeline :=
  (spec_C3_amended twoStartCfg bStartedSt 3 "t" "mb"
      ⟨fun l => l == "mb", "B", MWhen.start⟩
      (by decide) rfl rfl rfl (by simp [bStartedSt])).2.2
    (by
      intro h
      have := h.2.1
      simp [bStartedSt, twoStartCfg, truthy, emptyInterval] at this)

/-- C9 counterexample: config with an explicit marker (`"mb" → B`) *and* a
fallback pattern for `A`; the line `"pa"` matches no marker, yet the
fallback fires and sets `A.start` — fallback per-stage patterns are
consulted even though explicit markers are configured. -/
theorem spec_C9_cex :
    fallbackCfg.markers ≠ [] ∧
    fallbackCfg.markers.find? (fun m => m.regex "pa") = none ∧
    ((process_line fallbackCfg emptySt 4 "t" "pa").1.timeline "A").start =
      some 4 := by
  refine ⟨?_, rfl, rfl⟩
  simp [fallbackCfg]

/-- C9 as amended: per line at most one of reset / first-matching explicit
marker / first-matching fallback pattern takes effect, but the fallback
patterns are consulted whenever neither the reset pattern nor any explicit
marker matches, regardless of whether explicit markers are configured; a
line matching nothing changes only the log buffer, and an empty line
changes nothing. -/
theorem spec_C9_amended (cfg : Config) (st : TLState) (now : ℚ) (ts raw : String) :
    (normalizeLine raw = "" → process_line cfg st now ts raw = (st, none)) ∧
    (normalizeLine raw ≠ "" → cfg.start_re (normalizeLine raw) = true →
      (process_line cfg st now ts raw).1.timeline = st.timeline ∧
      (process_line cfg st now ts raw).2 = some Action.autoReset) ∧
    (∀ m, normalizeLine raw ≠ "" → cfg.start_re (normalizeLine raw) = false →
      cfg.markers.find? (fun m' => m'.regex (normalizeLine raw)) = some m →
      (process_line cfg st now ts raw).2 = none ∧
      (process_line cfg st now ts raw).1.timeline =
        (match m.when with
          | MWhen.start => applyStartMarker cfg st.timeline m.target now
          | MWhen.end_ => applyEndMarker st.timeline m.target now)) ∧
    (∀ p, normalizeLine raw ≠ "" → cfg.start_re (normalizeLine raw) = false →
      cfg.markers.find? (fun m' => m'.regex (normalizeLine raw)) = none →
      cfg.patterns.find? (fun q => q.2 (normalizeLine raw)) = some p →
      (process_line cfg st now ts raw).2 = none ∧
      (process_line cfg st now ts raw).1.timeline =
        applyStartMarker cfg st.timeline p.1 now) ∧
    (normalizeLine raw ≠ "" → cfg.start_re (normalizeLine raw) = false →
      cfg.markers.find? (fun m' => m'.regex (normalizeLine raw)) = none →
      cfg.patterns.find? (fun q => q.2 (normalizeLine raw)) = none →
      process_line cfg st now ts raw =
        ({ st with log_lines :=
            dedupAppend st.log_lines (ts ++ " - " ++ normalizeLine raw) },
          none)) := by
  refine ⟨?_, ?_, ?_, ?_, ?_⟩
  · intro h
    simp [process_line, h]
  · intro hne hre
    simp only [process_line]
    rw [if_neg hne, hre]
    simp
  · intro m hne hre hfind
    simp only [process_line]
    rw [if_neg hne, hre, hfind]
    simp only [Bool.false_eq_true, if_false]
    cases hw : m.when <;> exact ⟨rfl, rfl⟩
  · intro p hne hre hfind hpat
    simp only [process_line]
    rw [if_neg hne, hre, hfind, hpat]
    simp
  · intro hne hre hfind hpat
    simp only [process_line]
    rw [if_neg hne, hre, hfind, hpat]
    simp only [Bool.false_eq_true, if_false]

/-- Witness for C9's amended statement: the fallback branch fires for
`"pa"` in a config whose explicit marker list is nonempty. -/
theorem spec_C9_witness :
    (process_line fallbackCfg emptySt 4 "t" "pa").2 = none ∧
    (process_line fallbackCfg emptySt 4 "t" "pa").1.timeline =
      applyStartMarker fallbackCfg emptySt.timeline "A" 4 :=
  (spec_C9_amended fallbackCfg emptySt 4 "t" "pa").2.2.2.1
    ("A", fun l => l == "pa") (by decide) rfl rfl rfl

-- Preservation of the end-implies-start invariant by the individual
-- timeline mutations.

lemma tlinv_update_start (tl : String → Interval) (target : String) (now : ℚ)
    (h : TLInv tl) :
    TLInv (Function.update tl target { tl target with start := some now }) := by
  intro s hse
  by_cases hst : s = target
  · subst hst
    simp [Function.update]
  · simp only [Function.update, hst] at hse ⊢
    exact h s hse

lemma tlinv_update_end (tl : String → Interval) (p : String) (now : ℚ)
    (h : TLInv tl) (hp : (tl p).start ≠ none) :
    TLInv (Function.update tl p { tl p with end_ := some now }) := by
  intro s hse
  by_cases hsp : s = p
  · subst hsp
    simpa [Function.update] using hp
  · simp only [Function.update, hsp] at hse ⊢
    exact h s hse

lemma applyStartMarker_tlinv (cfg : Config) (tl : String → Interval)
    (target : String) (now : ℚ) (h : TLInv tl) :
    TLInv (applyStartMarker cfg tl target now) := by
  simp only [applyStartMarker]
  by_cases c1 : (tl target).start = none
  · rw [if_pos c1]
    split_ifs with c2 c3
    · exact tlinv_update_end _ _ _ (tlinv_update_start tl target now h)
        (start_ne_none_of_truthy c3.1)
    · exact tlinv_update_start tl target now h
    · exact tlinv_update_start tl target now h
  · rw [if_neg c1]
    split_ifs with c2 c3
    · exact tlinv_update_end _ _ _ h (start_ne_none_of_truthy c3.1)
    · exact h
    · exact h

lemma process_line_inv (cfg : Config) (st : TLState) (now : ℚ) (ts raw : String)
    (h : TimelineInv st) (hsafe : EndMarkerSafe cfg st raw) :
    TimelineInv (process_line cfg st now ts raw).1 := by
  by_cases hne : normalizeLine raw = ""
  · simpa [process_line, hne] using h
  · simp only [process_line]
    rw [if_neg hne]
    by_cases hre : cfg.start_re (normalizeLine raw) = true
    · rw [hre]
      exact h
    · have hfalse : cfg.start_re (normalizeLine raw) = false := by
        simpa using hre
      rw [hfalse]
      simp only [Bool.false_eq_true, if_false]
      rcases hfind : cfg.markers.find? (fun m' => m'.regex (normalizeLine raw))
        with _ | m
      · rw [hfind]
        rcases hpat : cfg.patterns.find? (fun q => q.2 (normalizeLine raw))
          with _ | p
        · rw [hpat]
          exact h
        · rw [hpat]
          exact applyStartMarker_tlinv cfg st.timeline p.1 now h
      · rcases m with ⟨rgx, mtar, mwhen⟩
        rw [hfind]
        cases mwhen
        · exact applyStartMarker_tlinv cfg st.timeline mtar now h
        · exact tlinv_update_end st.timeline mtar now h
            (hsafe ⟨rgx, mtar, MWhen.end_⟩ hfind rfl)

lemma processAll_inv (cfg : Config) (lines : List (ℚ × String × String)) :
    ∀ st : TLState, TimelineInv st → SafeTrace cfg st lines →
      TimelineInv (processAll cfg st lines) := by
  induction lines with
  | nil =>
    intro st h _
    exact h
  | cons l rest ih =>
    intro st h hsafe
    have h1 := process_line_inv cfg st l.1 l.2.1 l.2.2 h hsafe.1
    have h2 := ih _ h1 hsafe.2
    simpa [processAll] using h2

lemma applyReset_inv (cfg : Config) (st : TLState) (h : TimelineInv st) :
    TimelineInv (applyReset cfg st) := by
  intro s hse
  simp only [applyReset] at hse ⊢
  split_ifs at hse ⊢ with hmem
  · simp [emptyInterval] at hse
  · exact h s hse

lemma applyAutoReset_inv (cfg : Config) (st : TLState) (now2 : ℚ)
    (h : TimelineInv st) :
    TimelineInv (applyAutoReset cfg st now2) := by
  cases hstg : cfg.stages with
  | nil =>
    intro s hse
    simp only [applyAutoReset, hstg] at hse ⊢
    split_ifs at hse ⊢ with hmem
    · simp [emptyInterval] at hse
    · exact h s hse
  | cons s0 rest =>
    intro s hse
    simp only [applyAutoReset, hstg] at hse ⊢
    by_cases hs0 : s = s0
    · subst hs0
      rw [Function.update_same] at hse ⊢
      simp
    · rw [Function.update_noteq hs0] at hse ⊢
      split_ifs at hse ⊢ with hmem
      · simp [emptyInterval] at hse
      · exact h s hse

/-- C1 counterexample: one stage `A` whose only marker is an `End` marker;
processing a single matching line from the empty timeline produces the
interval `⟨none, some 5⟩` — `end` set while `start` is unset, because an
`End` marker writes `end` unconditionally (src/main.py lines 337-338). -/
theorem spec_C1_cex :
    ((process_line endCfg emptySt 5 "t" "x").1.timeline "A").end_ = some 5 ∧
    ((process_line endCfg emptySt 5 "t" "x").1.timeline "A").start = none :=
  ⟨rfl, rfl⟩

/-- C1 as amended: processing any sequence of log lines preserves the
no-end-without-start invariant **provided** every line whose first
matching marker is an `End` marker targets a stage whose `start` is set at
that point; both reset actions also preserve the invariant (`AutoReset`
leaves the first stage with `start` set and `end` unset).  Without that
proviso the invariant fails (see the counterexample). -/
theorem spec_C1_amended (cfg : Config) (st : TLState)
    (lines : List (ℚ × String × String)) (now2 : ℚ) (hinv : TimelineInv st) :
    (SafeTrace cfg st lines → TimelineInv (processAll cfg st lines)) ∧
    TimelineInv (applyReset cfg st) ∧
    TimelineInv (applyAutoReset cfg st now2) :=
  ⟨fun hsafe => processAll_inv cfg lines st hinv hsafe,
   applyReset_inv cfg st hinv,
   applyAutoReset_inv cfg st now2 hinv⟩

/-- Witness for C1's amended statement: a start-marker line on the empty
two-stage config is end-marker-safe, and the invariant survives it and
both resets. -/
theorem spec_C1_witness :
    TimelineInv (processAll twoStartCfg emptySt [(1, "t1", "mb")]) ∧
    TimelineInv (applyReset twoStartCfg emptySt) :=
  have hinv : TimelineInv emptySt := by
    intro s hs
    simp [emptySt, emptyInterval] at hs
  have hsafe : SafeTrace twoStartCfg emptySt [(1, "t1", "mb")] := by
    refine ⟨?_, trivial⟩
    intro m hm hw
    have hm2 : (⟨fun l => l == "mb", "B", MWhen.start⟩ : Marker) = m :=
      Option.some.inj hm
    rw [← hm2] at hw
    simp at hw
  ⟨(spec_C1_amended twoStartCfg emptySt [(1, "t1", "mb")] 5 hinv).1 hsafe,
   (spec_C1_amended twoStartCfg emptySt [(1, "t1", "mb")] 5 hinv).2.1⟩

-- Arithmetic facts about the floor-log10 and candidate-scan helpers of
-- closer_nice_max.

lemma floorLog10_spec (q : ℚ) (hq : 1 / 10 ^ 12 ≤ q) :
    (10:ℚ) ^ floorLog10 q ≤ q ∧ q < 10 ^ (floorLog10 q + 1) := by
  have hq0 : 0 < q := lt_of_lt_of_le (by norm_num) hq
  have h1 : (1:ℚ) ≤ q * 10 ^ 12 := by
    have h2 := mul_le_mul_of_nonneg_right hq (by norm_num : (0:ℚ) ≤ 10 ^ 12)
    have h3 : (1:ℚ) / 10 ^ 12 * 10 ^ 12 = 1 := by norm_num
    linarith
  have hfl : (1:ℤ) ≤ ⌊q * 10 ^ 12⌋ := by
    rw [Int.le_floor]
    exact_mod_cast h1
  have hNc : ((Int.toNat ⌊q * 10 ^ 12⌋ : ℤ)) = ⌊q * 10 ^ 12⌋ :=
    Int.toNat_of_nonneg (by linarith)
  have hN0 : Int.toNat ⌊q * 10 ^ 12⌋ ≠ 0 := by omega
  have hub : ((Int.toNat ⌊q * 10 ^ 12⌋ : ℚ)) ≤ q * 10 ^ 12 := by
    have h4 := Int.floor_le (q * 10 ^ 12)
    have h5 : ((Int.toNat ⌊q * 10 ^ 12⌋ : ℤ) : ℚ) = ((⌊q * 10 ^ 12⌋ : ℤ) : ℚ) := by
      exact_mod_cast congrArg (fun z : ℤ => (z : ℚ)) hNc
    push_cast at h5 ⊢
    linarith
  have hlb : q * 10 ^ 12 < ((Int.toNat ⌊q * 10 ^ 12⌋ : ℚ)) + 1 := by
    have h4 := Int.lt_floor_add_one (q * 10 ^ 12)
    have h5 : ((Int.toNat ⌊q * 10 ^ 12⌋ : ℤ) : ℚ) = ((⌊q * 10 ^ 12⌋ : ℤ) : ℚ) := by
      exact_mod_cast congrArg (fun z : ℤ => (z : ℚ)) hNc
    push_cast at h5 ⊢
    linarith
  have hp1 : (10:ℕ) ^ Nat.log 10 (Int.toNat ⌊q * 10 ^ 12⌋) ≤
      Int.toNat ⌊q * 10 ^ 12⌋ :=
    Nat.pow_log_le_self 10 hN0
  have hp2 : Int.toNat ⌊q * 10 ^ 12⌋ <
      (10:ℕ) ^ (Nat.log 10 (Int.toNat ⌊q * 10 ^ 12⌋) + 1) :=
    Nat.lt_pow_succ_log_self (by norm_num) _
  have key1 : (10:ℚ) ^ ((Nat.log 10 (Int.toNat ⌊q * 10 ^ 12⌋) : ℤ)) ≤
      q * 10 ^ 12 := by
    rw [zpow_natCast]
    calc (10:ℚ) ^ (Nat.log 10 (Int.toNat ⌊q * 10 ^ 12⌋)) =
        ((10 ^ Nat.log 10 (Int.toNat ⌊q * 10 ^ 12⌋) : ℕ) : ℚ) := by push_cast; ring
      _ ≤ ((Int.toNat ⌊q * 10 ^ 12⌋ : ℚ)) := by exact_mod_cast hp1
      _ ≤ q * 10 ^ 12 := hub
  have key2 : q * 10 ^ 12 <
      (10:ℚ) ^ ((Nat.log 10 (Int.toNat ⌊q * 10 ^ 12⌋) : ℤ) + 1) := by
    have h6 : ((Int.toNat ⌊q * 10 ^ 12⌋ : ℚ)) + 1 ≤
        (10:ℚ) ^ ((Nat.log 10 (Int.toNat ⌊q * 10 ^ 12⌋) : ℤ) + 1) := by
      have h7 : (Int.toNat ⌊q * 10 ^ 12⌋) + 1 ≤
          (10:ℕ) ^ (Nat.log 10 (Int.toNat ⌊q * 10 ^ 12⌋) + 1) := hp2
      have h8 : ((Nat.log 10 (Int.toNat ⌊q * 10 ^ 12⌋) : ℤ) + 1) =
          (((Nat.log 10 (Int.toNat ⌊q * 10 ^ 12⌋) + 1 : ℕ) : ℤ)) := by
        push_cast
        ring
      rw [h8, zpow_natCast]
      exact_mod_cast h7
    linarith
  have h9 : ((10:ℚ) ^ (12:ℤ)) = 10 ^ (12:ℕ) := by norm_num
  constructor
  · rw [floorLog10]
    rw [zpow_sub₀ (by norm_num : (10:ℚ) ≠ 0)]
    rw [div_le_iff₀ (by positivity : (0:ℚ) < 10 ^ (12:ℤ))]
    rw [h9]
    exact key1
  · rw [floorLog10]
    have h10 : ((Nat.log 10 (Int.toNat ⌊q * 10 ^ 12⌋) : ℤ)) - 12 + 1 =
        ((Nat.log 10 (Int.toNat ⌊q * 10 ^ 12⌋) : ℤ) + 1) - 12 := by ring
    rw [h10, zpow_sub₀ (by norm_num : (10:ℚ) ≠ 0)]
    rw [lt_div_iff₀ (by positivity : (0:ℚ) < 10 ^ (12:ℤ))]
    rw [h9]
    exact key2

lemma floorLog10_eq_of (q : ℚ) (e : ℤ) (h0 : 1 / 10 ^ 12 ≤ q)
    (h1 : (10:ℚ) ^ e ≤ q) (h2 : q < 10 ^ (e + 1)) : floorLog10 q = e := by
  rcases floorLog10_spec q h0 with ⟨s1, s2⟩
  by_contra hne
  rcases lt_or_gt_of_ne hne with hlt | hgt
  · have hb : (10:ℚ) ^ (floorLog10 q + 1) ≤ 10 ^ e :=
      zpow_le_zpow_right₀ (by norm_num : (1:ℚ) ≤ 10) (by omega)
    linarith
  · have hb : (10:ℚ) ^ (e + 1) ≤ 10 ^ floorLog10 q :=
      zpow_le_zpow_right₀ (by norm_num : (1:ℚ) ≤ 10) (by omega)
    linarith

lemma pickCandidate_ge (target mag : ℚ) (l : List ℚ)
    (hbase : target - 1 / 10 ^ 12 ≤ 10 * mag) :
    target - 1 / 10 ^ 12 ≤ pickCandidate target mag l := by
  induction l with
  | nil => simpa [pickCandidate] using hbase
  | cons c rest ih =>
    simp only [pickCandidate]
    split_ifs with h
    · exact h
    · exact ih

lemma pickCandidate_shape (target mag : ℚ) (l : List ℚ) :
    pickCandidate target mag l = 10 * mag ∨
      ∃ c ∈ l, pickCandidate target mag l = c * mag := by
  induction l with
  | nil => exact Or.inl rfl
  | cons c rest ih =>
    simp only [pickCandidate]
    split_ifs with h
    · exact Or.inr ⟨c, by simp, rfl⟩
    · rcases ih with h1 | ⟨d, hd, he⟩
      · exact Or.inl h1
      · exact Or.inr ⟨d, by simp [hd], he⟩

lemma pickCandidate_min (target mag : ℚ) (hmag : 0 ≤ mag) :
    ∀ l : List ℚ, l.Pairwise (· ≤ ·) →
      ∀ c ∈ l, target - 1 / 10 ^ 12 ≤ c * mag →
        pickCandidate target mag l ≤ c * mag := by
  intro l
  induction l with
  | nil =>
    intro _ c hc
    simp at hc
  | cons c0 rest ih =>
    intro hpw c hc hcge
    have hpw1 : ∀ a ∈ rest, c0 ≤ a := (List.pairwise_cons.mp hpw).1
    have hpw2 : rest.Pairwise (· ≤ ·) := (List.pairwise_cons.mp hpw).2
    simp only [pickCandidate]
    split_ifs with h
    · rcases List.mem_cons.mp hc with hceq | hcrest
      · subst hceq
        exact le_refl _
      · exact mul_le_mul_of_nonneg_right (hpw1 c hcrest) hmag
    · rcases List.mem_cons.mp hc with hceq | hcrest
      · subst hceq
        exact absurd hcge h
      · exact ih hpw2 c hcrest hcge

lemma niceCandidates_sorted : niceCandidates.Pairwise (· ≤ ·) := by
  simp only [niceCandidates, List.pairwise_cons, List.mem_cons, List.mem_singleton]
  norm_num

lemma closer_nice_max_zero (hf : ℚ) : closer_nice_max hf 0 = 1 := by
  simp [closer_nice_max]

lemma closer_nice_max_ge (hf x : ℚ) (hx : 0 < x) :
    x * hf - 1 / 10 ^ 12 ≤ closer_nice_max hf x := by
  rw [closer_nice_max, if_neg (not_le.mpr hx)]
  apply pickCandidate_ge
  have hT : (1:ℚ) / 10 ^ 12 ≤ max (x * hf) (1 / 10 ^ 12) := le_max_right _ _
  have hspec := (floorLog10_spec _ hT).2
  have h1 : x * hf ≤ max (x * hf) (1 / 10 ^ 12) := le_max_left _ _
  have h2 : (10:ℚ) ^ (floorLog10 (max (x * hf) (1 / 10 ^ 12)) + 1) =
      10 * 10 ^ floorLog10 (max (x * hf) (1 / 10 ^ 12)) := by
    rw [zpow_add_one₀ (by norm_num : (10:ℚ) ≠ 0)]
    ring
  have h3 : (0:ℚ) < 1 / 10 ^ 12 := by norm_num
  linarith

lemma closer_nice_max_shape (hf x : ℚ) (hx : 0 < x) :
    ∃ c ∈ niceCandidates, ∃ k : ℤ, closer_nice_max hf x = c * 10 ^ k := by
  rw [closer_nice_max, if_neg (not_le.mpr hx)]
  rcases pickCandidate_shape (x * hf)
      (10 ^ floorLog10 (max (x * hf) (1 / 10 ^ 12))) niceCandidates with
    h | ⟨c, hc, he⟩
  · refine ⟨1, by simp [niceCandidates],
      floorLog10 (max (x * hf) (1 / 10 ^ 12)) + 1, ?_⟩
    rw [h, zpow_add_one₀ (by norm_num : (10:ℚ) ≠ 0)]
    ring
  · exact ⟨c, hc, _, he⟩

lemma closer_nice_max_min (hf x : ℚ) (hx : 0 < x) :
    ∀ c ∈ niceCandidates,
      x * hf - 1 / 10 ^ 12 ≤ c * 10 ^ floorLog10 (max (x * hf) (1 / 10 ^ 12)) →
      closer_nice_max hf x ≤ c * 10 ^ floorLog10 (max (x * hf) (1 / 10 ^ 12)) := by
  intro c hc hge
  rw [closer_nice_max, if_neg (not_le.mpr hx)]
  exact pickCandidate_min _ _ (le_of_lt (by positivity)) niceCandidates
    niceCandidates_sorted c hc hge

/-- C6 counterexample: at `x = 4000000000001/2100000000000` (whose target
`x * 1.05 = 2 + 5·10^-13`) the `cand >= target - 1e-12` tolerance accepts
the candidate `2`, so `closer_nice_max` returns a value *strictly below*
`x * 1.05` — the claimed `result ≥ x*1.05` fails. -/
theorem spec_C6_cex :
    closer_nice_max (21/20) nearTwo < nearTwo * (21/20) := by
  have htarget : nearTwo * (21/20) = 4000000000001 / 2000000000000 := by
    rw [nearTwo]
    norm_num
  have hmax : max (nearTwo * (21/20)) ((1:ℚ)/10^12) =
      4000000000001 / 2000000000000 := by
    rw [htarget, max_eq_left (by norm_num)]
  have he : floorLog10 (max (nearTwo * (21/20)) ((1:ℚ)/10^12)) = 0 := by
    rw [hmax]
    apply floorLog10_eq_of
    · norm_num
    · norm_num
    · norm_num
  rw [closer_nice_max, if_neg (by rw [nearTwo]; norm_num : ¬ nearTwo ≤ 0), he,
    htarget]
  have hpick : pickCandidate ((4000000000001:ℚ) / 2000000000000)
      ((10:ℚ)^(0:ℤ)) niceCandidates = 2 := by
    simp only [pickCandidate, niceCandidates]
    norm_num
  rw [hpick]
  norm_num

/-- C6 as amended: `closer_nice_max(0) = 1`; for `x > 0` the result is the
smallest element of the candidate set `{1,1.1,1.2,1.25,1.5,2,2.5,5} × 10^k`
with `k = floor(log10(max(x·headroom, 1e-12)))` that is
`≥ x·headroom − 1e-12` (falling back to `10·10^k`); in particular the
result is always `≥ x·headroom − 1e-12` (not `≥ x·headroom`: the `1e-12`
tolerance is part of the code) and is a candidate multiplier times a power
of 10. -/
theorem spec_C6_amended (hf x : ℚ) (hx : 0 < x) :
    closer_nice_max hf 0 = 1 ∧
    x * hf - 1 / 10 ^ 12 ≤ closer_nice_max hf x ∧
    (∃ c ∈ niceCandidates, ∃ k : ℤ, closer_nice_max hf x = c * 10 ^ k) ∧
    (∀ c ∈ niceCandidates,
      x * hf - 1 / 10 ^ 12 ≤ c * 10 ^ floorLog10 (max (x * hf) (1 / 10 ^ 12)) →
      closer_nice_max hf x ≤ c * 10 ^ floorLog10 (max (x * hf) (1 / 10 ^ 12))) :=
  ⟨closer_nice_max_zero hf, closer_nice_max_ge hf x hx,
   closer_nice_max_shape hf x hx, closer_nice_max_min hf x hx⟩

/-- Witness for C6's amended statement at `x = 1`, headroom `1.05`. -/
theorem spec_C6_witness :
    (0:ℚ) < 1 ∧ (1:ℚ) * (21/20) - 1 / 10 ^ 12 ≤ closer_nice_max (21/20) 1 :=
  ⟨by norm_num, (spec_C6_amended (21/20) 1 (by norm_num)).2.1⟩

/-- C7 counterexample: with headroom factor exactly 1 (which satisfies the
claim's `headroom_factor ≥ 1`), current scale `2.000002` and needed value
`2`, the update guard `needed > scale * 0.999999` fires and
`closer_nice_max` returns `2 < 2.000002` — the scale decreases. -/
theorem spec_C7_cex :
    scale_update 1 (2000001/1000000) 2 < 2000001/1000000 := by
  have hcond : ((2000001:ℚ)/1000000) * (999999/1000000) < 2 := by norm_num
  rw [scale_update, if_pos hcond]
  have he : floorLog10 (max ((2:ℚ) * 1) ((1:ℚ)/10^12)) = 0 := by
    rw [show ((2:ℚ) * 1) = 2 by ring, max_eq_left (by norm_num)]
    apply floorLog10_eq_of
    · norm_num
    · norm_num
    · norm_num
  rw [closer_nice_max, if_neg (by norm_num : ¬ (2:ℚ) ≤ 0), he]
  have hpick : pickCandidate ((2:ℚ) * 1) ((10:ℚ)^(0:ℤ)) niceCandidates = 2 := by
    simp only [pickCandidate, niceCandidates]
    norm_num
  rw [hpick]
  norm_num

/-- C7 as amended: the per-frame target-ceiling update never decreases the
scale provided the headroom factor is at least `1.05` (the default) and
the current scale is at least `10^-9` (as holds in the loop, where the
needed value is floored at `1e-9` and the scales start at `5.0` or at
presets clamped to `≥ 1`); headroom ≥ 1 alone is not enough (see the
counterexample). -/
theorem spec_C7_amended (hf scale needed : ℚ) (hhf : 21/20 ≤ hf)
    (hs : 1 / 10 ^ 9 ≤ scale) :
    scale ≤ scale_update hf scale needed := by
  rw [scale_update]
  split_ifs with h
  · have h0 : (0:ℚ) < scale * (999999/1000000) := by linarith
    have hn : 0 < needed := lt_trans h0 h
    have hge := closer_nice_max_ge hf needed hn
    have hmono : needed * (21/20) ≤ needed * hf :=
      mul_le_mul_of_nonneg_left hhf (le_of_lt hn)
    linarith
  · exact le_refl scale

/-- Witness for C7's amended statement at headroom `1.05`, scale `5`,
needed `3`. -/
theorem spec_C7_witness :
    (21:ℚ)/20 ≤ 21/20 ∧ (1:ℚ)/10^9 ≤ 5 ∧ (5:ℚ) ≤ scale_update (21/20) 5 3 :=
  ⟨le_refl _, by norm_num,
   spec_C7_amended (21/20) 5 3 (le_refl _) (by norm_num)⟩

lemma stages_getD_mem (cfg : Config) {i : ℕ} (hi : i < cfg.stages.length) :
    cfg.stages.getD i "" ∈ cfg.stages := by
  rw [List.getD_eq_getElem _ _ hi]
  exact List.getElem_mem hi

lemma stages_getD_ne (cfg : Config) (hnd : cfg.stages.Nodup) {i j : ℕ}
    (hi : i < cfg.stages.length) (hj : j < cfg.stages.length) (hij : i ≠ j) :
    cfg.stages.getD i "" ≠ cfg.stages.getD j "" := by
  rw [List.getD_eq_getElem _ _ hi, List.getD_eq_getElem _ _ hj]
  intro h
  exact hij ((List.Nodup.getElem_inj_iff hnd).mp h)

lemma stages_indexOf_getD (cfg : Config) (hnd : cfg.stages.Nodup) {i : ℕ}
    (hi : i < cfg.stages.length) :
    cfg.stages.indexOf (cfg.stages.getD i "") = i := by
  rw [List.getD_eq_getElem _ _ hi]
  exact List.indexOf_getElem hnd i hi

lemma getD_zero_headD (l : List String) : l.getD 0 "" = l.headD "" := by
  cases l <;> rfl

lemma applyAutoReset_timeline_head (cfg : Config) (st : TLState) (now2 : ℚ)
    (hne : cfg.stages ≠ []) :
    (applyAutoReset cfg st now2).timeline (cfg.stages.headD "") =
      ⟨some now2, none⟩ := by
  cases hstg : cfg.stages with
  | nil => exact absurd hstg hne
  | cons s0 rest =>
    simp only [applyAutoReset, hstg, List.headD_cons, Function.update_same]
    have hmem : s0 ∈ s0 :: rest := List.mem_cons_self s0 rest
    simp [hmem, emptyInterval]

lemma applyAutoReset_timeline_other (cfg : Config) (st : TLState) (now2 : ℚ)
    (s : String) (hs : s ∈ cfg.stages) (hsh : s ≠ cfg.stages.headD "") :
    (applyAutoReset cfg st now2).timeline s = emptyInterval := by
  cases hstg : cfg.stages with
  | nil => rw [hstg] at hs; simp at hs
  | cons s0 rest =>
    have hs0 : s ≠ s0 := by rw [hstg] at hsh; simpa using hsh
    have hsm : s ∈ s0 :: rest := by rw [hstg] at hs; exact hs
    simp only [applyAutoReset, hstg]
    rw [Function.update_noteq hs0]
    simp [hsm]

lemma processAll_range (cfg : Config) (st : TLState) (ts : ℕ → String)
    (t : ℕ → ℚ) (mline : ℕ → String) (n : ℕ) :
    processAll cfg st ((List.range n).map fun j => (t j, ts j, mline j)) =
      runMarkers cfg st ts t mline n := by
  induction n with
  | zero => rfl
  | succ k ih =>
    simp only [processAll] at ih ⊢
    rw [List.range_succ, List.map_append, List.foldl_append, ih]
    simp [runMarkers]

lemma stinv_base (cfg : Config) (hnd : cfg.stages.Nodup) (stR : TLState)
    (u : ℚ) (t : ℕ → ℚ) :
    StInv cfg u t 0 (applyAutoReset cfg stR u) := by
  intro i hi
  have hlen : cfg.stages ≠ [] := by
    intro h
    rw [h] at hi
    simp at hi
  by_cases hi0 : i = 0
  · subst hi0
    rw [getD_zero_headD, applyAutoReset_timeline_head cfg stR u hlen]
    constructor
    · rw [if_pos (by omega)]
      simp [tau]
    · rw [if_neg (by omega)]
  · have hne : cfg.stages.getD i "" ≠ cfg.stages.headD "" := by
      rw [← getD_zero_headD]
      exact stages_getD_ne cfg hnd hi (by omega) hi0
    rw [applyAutoReset_timeline_other cfg stR u _ (stages_getD_mem cfg hi) hne]
    constructor
    · rw [if_neg (by omega)]
      rfl
    · rw [if_neg (by omega)]
      rfl

lemma stinv_step (cfg : Config) (hnd : cfg.stages.Nodup) (u : ℚ) (t : ℕ → ℚ)
    (mline ts : ℕ → String) (hms : MarkerScenario cfg mline)
    (hupos : 0 < u) (htpos : ∀ i, i < cfg.stages.length → 0 < t i)
    (j : ℕ) (hj : j < cfg.stages.length) (st : TLState)
    (hinv : StInv cfg u t j st) :
    StInv cfg u t (j + 1) (process_line cfg st (t j) (ts j) (mline j)).1 := by
  obtain ⟨hnorm, hne, hnr, m, hfind, htar, hwhen⟩ := hms j hj
  have hres : (process_line cfg st (t j) (ts j) (mline j)).1.timeline =
      applyStartMarker cfg st.timeline m.target (t j) := by
    simp only [process_line, hnorm]
    rw [if_neg hne, hnr, hfind]
    simp only [Bool.false_eq_true, if_false, hwhen]
  by_cases hj0 : j = 0
  · subst hj0
    have h0 := (hinv 0 (by omega)).1
    rw [if_pos (by omega)] at h0
    have happ : applyStartMarker cfg st.timeline m.target (t 0) = st.timeline := by
      simp only [applyStartMarker, htar, stages_indexOf_getD cfg hnd hj, h0]
      rw [if_neg (show ¬ some (tau u t 0) = none by simp)]
      rw [if_neg (show ¬ 1 ≤ 0 by omega)]
    intro i hi
    have hbase := hinv i hi
    refine ⟨?_, ?_⟩
    · rw [hres, happ, hbase.1]
      split_ifs with h1 h2 <;> first | rfl | omega
    · rw [hres, happ, hbase.2]
      split_ifs with h1 h2 <;> first | rfl | omega
  · have hj1 : 1 ≤ j := by omega
    have hsn : (st.timeline (cfg.stages.getD j "")).start = none := by
      have h := (hinv j hj).1
      rwa [if_neg (by omega)] at h
    have hprevstart : (st.timeline (cfg.stages.getD (j-1) "")).start =
        some (tau u t (j-1)) := by
      have h := (hinv (j-1) (by omega)).1
      rwa [if_pos (by omega)] at h
    have hprevend : (st.timeline (cfg.stages.getD (j-1) "")).end_ = none := by
      have h := (hinv (j-1) (by omega)).2
      rwa [if_neg (by omega)] at h
    have htaupos : tau u t (j-1) ≠ 0 := by
      rw [tau]
      split_ifs
      · exact ne_of_gt hupos
      · exact ne_of_gt (htpos (j-1) (by omega))
    have hprevne : cfg.stages.getD (j-1) "" ≠ cfg.stages.getD j "" :=
      stages_getD_ne cfg hnd (by omega) hj (by omega)
    have happ : applyStartMarker cfg st.timeline m.target (t j) =
        Function.update
          (Function.update st.timeline (cfg.stages.getD j "")
            { st.timeline (cfg.stages.getD j "") with start := some (t j) })
          (cfg.stages.getD (j-1) "")
          { st.timeline (cfg.stages.getD (j-1) "") with end_ := some (t j) } := by
      simp only [applyStartMarker, htar, stages_indexOf_getD cfg hnd hj, hsn]
      rw [if_pos trivial]
      rw [if_pos hj1]
      rw [Function.update_noteq hprevne]
      rw [if_pos ⟨by rw [hprevstart]; exact truthy_some_of_ne htaupos,
        hprevend⟩]
    intro i hi
    refine ⟨?_, ?_⟩
    · rw [hres, happ]
      by_cases hij : i = j
      · subst hij
        rw [Function.update_noteq (Ne.symm hprevne), Function.update_same]
        rw [if_pos (by omega)]
        rw [tau]
        rw [if_neg hj0]
      · by_cases hij1 : i = j - 1
        · subst hij1
          rw [Function.update_same]
          simp only [hprevstart]
          rw [if_pos (by omega)]
        · rw [Function.update_noteq (stages_getD_ne cfg hnd hi (by omega) hij1),
            Function.update_noteq (stages_getD_ne cfg hnd hi hj hij)]
          rw [(hinv i hi).1]
          split_ifs with h1 h2 <;> first | rfl | omega
    · rw [hres, happ]
      by_cases hij : i = j
      · subst hij
        rw [Function.update_noteq (Ne.symm hprevne), Function.update_same]
        have h := (hinv i hi).2
        rw [if_neg (by omega)] at h
        simp only [h]
        rw [if_neg (by omega)]
      · by_cases hij1 : i = j - 1
        · subst hij1
          rw [Function.update_same]
          rw [if_pos (by omega)]
          have hjj : j - 1 + 1 = j := by omega
          rw [hjj, tau, if_neg hj0]
        · rw [Function.update_noteq (stages_getD_ne cfg hnd hi (by omega) hij1),
            Function.update_noteq (stages_getD_ne cfg hnd hi hj hij)]
          rw [(hinv i hi).2]
          split_ifs with h1 h2 <;> first | rfl | omega

lemma stinv_run (cfg : Config) (hnd : cfg.stages.Nodup) (stR : TLState)
    (u : ℚ) (t : ℕ → ℚ) (mline ts : ℕ → String) (hms : MarkerScenario cfg mline)
    (hupos : 0 < u) (htpos : ∀ i, i < cfg.stages.length → 0 < t i) :
    ∀ j, j ≤ cfg.stages.length →
      StInv cfg u t j (runMarkers cfg (applyAutoReset cfg stR u) ts t mline j) := by
  intro j
  induction j with
  | zero =>
    intro _
    exact stinv_base cfg hnd stR u t
  | succ k ih =>
    intro hk
    exact stinv_step cfg hnd u t mline ts hms hupos htpos k (by omega) _
      (ih (by omega))

/-- C4: for a sequence consisting of one reset-pattern line (whose emitted
`AUTO_RESET` is consumed at time `u > 0`, setting stage 0's `start`)
followed by each stage's start marker in index order at positive
nondecreasing times, every non-final stage `i` of the resulting timeline
satisfies `start_i ≤ end_i` and `end_i = start_{i+1}` (hence
`start_i ≤ end_i ≤ start_{i+1}`), the shared timestamp being written in
one mutation. -/
theorem spec_C4 (cfg : Config) (st0 : TLState) (rawR tsR : String) (tR u : ℚ)
    (mline ts : ℕ → String) (t : ℕ → ℚ)
    (hnd : cfg.stages.Nodup)
    (hreset : cfg.start_re (normalizeLine rawR) = true)
    (hrne : normalizeLine rawR ≠ "")
    (hupos : 0 < u)
    (htpos : ∀ i, i < cfg.stages.length → 0 < t i)
    (hu1 : 1 < cfg.stages.length → u ≤ t 1)
    (hmono : ∀ i, 1 ≤ i → i + 1 < cfg.stages.length → t i ≤ t (i + 1))
    (hms : MarkerScenario cfg mline) :
    ∀ i, i + 1 < cfg.stages.length →
      ∃ a b : ℚ,
        (((processAll cfg
            (applyAutoReset cfg (process_line cfg st0 tR tsR rawR).1 u)
            ((List.range cfg.stages.length).map fun j =>
              (t j, ts j, mline j))).timeline (cfg.stages.getD i "")).start =
          some a) ∧
        (((processAll cfg
            (applyAutoReset cfg (process_line cfg st0 tR tsR rawR).1 u)
            ((List.range cfg.stages.length).map fun j =>
              (t j, ts j, mline j))).timeline (cfg.stages.getD i "")).end_ =
          some b) ∧
        (((processAll cfg
            (applyAutoReset cfg (process_line cfg st0 tR tsR rawR).1 u)
            ((List.range cfg.stages.length).map fun j =>
              (t j, ts j, mline j))).timeline (cfg.stages.getD (i+1) "")).start =
          some b) ∧
        a ≤ b := by
  intro i hi
  rw [processAll_range]
  have hrun := stinv_run cfg hnd (process_line cfg st0 tR tsR rawR).1 u t mline
    ts hms hupos htpos cfg.stages.length (le_refl _)
  refine ⟨tau u t i, tau u t (i+1), ?_, ?_, ?_, ?_⟩
  · have h := (hrun i (by omega)).1
    rwa [if_pos (by omega)] at h
  · have h := (hrun i (by omega)).2
    rwa [if_pos (by omega)] at h
  · have h := (hrun (i+1) (by omega)).1
    rwa [if_pos (by omega)] at h
  · by_cases hi0 : i = 0
    · subst hi0
      simp only [tau, if_pos rfl, if_neg (by omega : ¬ (0 + 1 = 0))]
      exact hu1 (by omega)
    · simp only [tau, if_neg hi0, if_neg (by omega : ¬ (i + 1 = 0))]
      exact hmono i (by omega) hi

/-- Witness for C4 on the spec §8 scenario: stages `[A,B,C]`, reset
`"POR"` at time 1, consumption at 2, markers at times 3, 4, 5. -/
theorem spec_C4_witness :
    ∃ a b : ℚ,
      (((processAll seqCfg
          (applyAutoReset seqCfg (process_line seqCfg emptySt 1 "t0" "POR").1 2)
          ((List.range seqCfg.stages.length).map fun j : ℕ =>
            ((j : ℚ) + 3, (fun _ : ℕ => "ts") j,
              (fun j : ℕ => if j = 0 then "sa" else if j = 1 then "sb" else "sc") j))).timeline
          (seqCfg.stages.getD 0 "")).start = some a) ∧
      (((processAll seqCfg
          (applyAutoReset seqCfg (process_line seqCfg emptySt 1 "t0" "POR").1 2)
          ((List.range seqCfg.stages.length).map fun j : ℕ =>
            ((j : ℚ) + 3, (fun _ : ℕ => "ts") j,
              (fun j : ℕ => if j = 0 then "sa" else if j = 1 then "sb" else "sc") j))).timeline
          (seqCfg.stages.getD 0 "")).end_ = some b) ∧
      (((processAll seqCfg
          (applyAutoReset seqCfg (process_line seqCfg emptySt 1 "t0" "POR").1 2)
          ((List.range seqCfg.stages.length).map fun j : ℕ =>
            ((j : ℚ) + 3, (fun _ : ℕ => "ts") j,
              (fun j : ℕ => if j = 0 then "sa" else if j = 1 then "sb" else "sc") j))).timeline
          (seqCfg.stages.getD 1 "")).start = some b) ∧
      a ≤ b :=
  spec_C4 seqCfg emptySt "POR" "t0" 1 2
    (fun j : ℕ => if j = 0 then "sa" else if j = 1 then "sb" else "sc")
    (fun _ : ℕ => "ts") (fun j : ℕ => (j : ℚ) + 3)
    (by decide)
    (by decide)
    (by decide)
    (by norm_num)
    (by
      intro i _
      positivity)
    (by
      intro _
      norm_num)
    (by
      intro i h1 h2
      push_cast
      linarith)
    (by
      intro i hi
      have hi3 : i < 3 := hi
      interval_cases i <;>
        exact ⟨by decide, by decide, by decide, ⟨_, rfl, rfl, rfl⟩⟩)
    0 (by decide)

end GoldBox
